import Mathlib

/-!
Verification of the PictureModify region-editing core against its design
specification.  The Python sources are shallowly embedded: images are a
width/height pair together with a pixel-lookup function, the history engine
is an explicit record of its list and cursor, and the external primitives
(OpenCV inpainting, Canny edge counting, the OCR engine, font file lookup)
are passed in as function parameters, exactly at the call boundary the code
uses them.
-/

namespace PictureModify

/-! ### History engine (`src/utils/history_manager.py`) -/

/-- State of `HistoryManager`: the bound `max_history`, the snapshot list
`history`, and the integer cursor `current_index` (initially `-1`). -/
structure HistoryManager (α : Type) where
  max_history : Nat
  history : List α
  current_index : Int
deriving Repr, DecidableEq

/-- `HistoryManager.__init__`: empty list, cursor `-1` (default bound 20). -/
def HistoryManager.empty (α : Type) (max_history : Nat) : HistoryManager α :=
  ⟨max_history, [], -1⟩

/-- `HistoryManager.save_state`: truncate everything after the cursor when the
cursor is not at the newest entry, append a copy of the image, then either
evict the oldest entry (`pop(0)`, cursor unchanged) when the bound is
exceeded, or advance the cursor. -/
def HistoryManager.save_state (h : HistoryManager α) (image : α) : HistoryManager α :=
  let kept := if h.current_index < (h.history.length : Int) - 1
              then h.history.take (h.current_index + 1).toNat
              else h.history
  let appended := kept ++ [image]
  if appended.length > h.max_history then
    ⟨h.max_history, appended.drop 1, h.current_index⟩
  else
    ⟨h.max_history, appended, h.current_index + 1⟩

/-- `HistoryManager.can_undo`: cursor strictly positive. -/
def HistoryManager.can_undo (h : HistoryManager α) : Bool :=
  decide (0 < h.current_index)

/-- `HistoryManager.can_redo`: cursor strictly before the newest entry. -/
def HistoryManager.can_redo (h : HistoryManager α) : Bool :=
  decide (h.current_index < (h.history.length : Int) - 1)

/-- `HistoryManager.undo`: when allowed, decrement the cursor and return a
copy of the entry now under it; otherwise return `None` and leave the state
untouched.  The returned pair is (returned image, state after the call). -/
def HistoryManager.undo (h : HistoryManager α) : Option α × HistoryManager α :=
  if h.can_undo then
    ((h.history.get? (h.current_index - 1).toNat),
     ⟨h.max_history, h.history, h.current_index - 1⟩)
  else (none, h)

/-- `HistoryManager.redo`: when allowed, increment the cursor and return a
copy of the entry now under it; otherwise return `None` and leave the state
untouched. -/
def HistoryManager.redo (h : HistoryManager α) : Option α × HistoryManager α :=
  if h.can_redo then
    ((h.history.get? (h.current_index + 1).toNat),
     ⟨h.max_history, h.history, h.current_index + 1⟩)
  else (none, h)

/-- `HistoryManager.clear`. -/
def HistoryManager.clear (h : HistoryManager α) : HistoryManager α :=
  ⟨h.max_history, [], -1⟩

/-- `HistoryManager.get_current_state`. -/
def HistoryManager.get_current_state (h : HistoryManager α) : Option α :=
  if 0 ≤ h.current_index ∧ h.current_index < (h.history.length : Int) then
    h.history.get? h.current_index.toNat
  else none

/-- `HistoryManager.reset`: clear, then save the image when one is given. -/
def HistoryManager.reset (h : HistoryManager α) (image : Option α) : HistoryManager α :=
  match image with
  | none => h.clear
  | some img => h.clear.save_state img

/-- A sequence of `save_state` calls, oldest first. -/
def saveSeq (h : HistoryManager α) (l : List α) : HistoryManager α :=
  l.foldl HistoryManager.save_state h

theorem saveSeq_append_single (h : HistoryManager α) (l : List α) (x : α) :
    saveSeq h (l ++ [x]) = (saveSeq h l).save_state x := by
  simp [saveSeq]

/-- `save_state` on a state whose cursor sits on the newest entry: no
truncation happens; the snapshot is appended and either the oldest entry is
evicted (cursor unchanged) or the cursor advances. -/
theorem save_state_at_newest (m : Nat) (hl : List α) (x : α) :
    (⟨m, hl, (hl.length : Int) - 1⟩ : HistoryManager α).save_state x =
      if hl.length + 1 > m then ⟨m, (hl ++ [x]).drop 1, (hl.length : Int) - 1⟩
      else ⟨m, hl ++ [x], (hl.length : Int)⟩ := by
  simp only [HistoryManager.save_state]
  rw [if_neg (lt_irrefl ((hl.length : Int) - 1))]
  by_cases h2 : hl.length + 1 > m
  · rw [if_pos (show (hl ++ [x]).length > m by simpa using h2), if_pos h2]
  · rw [if_neg (show ¬ (hl ++ [x]).length > m by simpa using h2), if_neg h2]
    congr 1
    omega

/-- Running a sequence of saves on a fresh manager keeps exactly the most
recent `m` snapshots (a suffix of the saves so far) with the cursor on the
newest one. -/
theorem saveSeq_empty_spec (m : Nat) (hm : 1 ≤ m) (l : List α) :
    saveSeq (HistoryManager.empty α m) l
      = ⟨m, l.drop (l.length - m), ((min l.length m : Nat) : Int) - 1⟩ := by
  induction l using List.reverseRecOn with
  | nil => simp [saveSeq, HistoryManager.empty]
  | append_singleton l' x ih =>
    rw [saveSeq_append_single, ih]
    have hdl : (l'.drop (l'.length - m)).length = min l'.length m := by
      simp [List.length_drop]
      omega
    have hcur : ((min l'.length m : Nat) : Int) - 1
        = ((l'.drop (l'.length - m)).length : Int) - 1 := by rw [hdl]
    rw [hcur, save_state_at_newest]
    by_cases hc : l'.length < m
    · rw [if_neg (by rw [hdl]; omega)]
      have e0 : l'.length - m = 0 := by omega
      have e1 : (l' ++ [x]).length - m = 0 := by simp; omega
      rw [e0, List.drop_zero, e1, List.drop_zero]
      have e2 : min (l' ++ [x]).length m = l'.length + 1 := by simp; omega
      rw [e2]
      congr 1
      omega
    · rw [if_pos (by rw [hdl]; omega)]
      have hm_le : m ≤ l'.length := by omega
      have e1 : (l' ++ [x]).drop ((l' ++ [x]).length - m)
          = l'.drop (l'.length + 1 - m) ++ [x] := by
        rw [List.length_append]
        simp only [List.length_singleton]
        rw [List.drop_append_of_le_length (by omega)]
      have e2 : (l'.drop (l'.length - m) ++ [x]).drop 1
          = l'.drop (l'.length + 1 - m) ++ [x] := by
        rw [List.drop_append_of_le_length (by rw [hdl]; omega),
            List.drop_drop]
        congr 2
        omega
      rw [e1, e2]
      congr 1
      have e3 : min (l' ++ [x]).length m = m := by simp; omega
      rw [e3, hdl]
      omega

/-- C1: starting from an empty history engine, the sequence
`save_state s1; save_state s2; undo; save_state s3` leaves the timeline
exactly `[s1, s3]` with the cursor on `s3` (index 1), and `can_redo` is
false: a save issued while the cursor is not at the newest entry discards
every entry after the cursor before appending. -/
theorem c1_history_linearity (α : Type) (m : Nat) (hm : 2 ≤ m) (s1 s2 s3 : α) :
    ((((HistoryManager.empty α m).save_state s1).save_state s2).undo.2.save_state s3)
        = ⟨m, [s1, s3], 1⟩
    ∧ ((((HistoryManager.empty α m).save_state s1).save_state s2).undo.2.save_state
        s3).can_redo = false := by
  have e1 : (HistoryManager.empty α m).save_state s1 = ⟨m, [s1], 0⟩ := by
    simp [HistoryManager.empty, HistoryManager.save_state]
    omega
  have e2 : (⟨m, [s1], 0⟩ : HistoryManager α).save_state s2 = ⟨m, [s1, s2], 1⟩ := by
    simp [HistoryManager.save_state]
    omega
  have e3 : (⟨m, [s1, s2], 1⟩ : HistoryManager α).undo = (some s1, ⟨m, [s1, s2], 0⟩) := by
    simp [HistoryManager.undo, HistoryManager.can_undo]
  have e4 : (⟨m, [s1, s2], 0⟩ : HistoryManager α).save_state s3 = ⟨m, [s1, s3], 1⟩ := by
    simp [HistoryManager.save_state]
    omega
  rw [e1, e2, e3, e4]
  exact ⟨rfl, by simp [HistoryManager.can_redo]⟩

/-- Witness for C1 at the engine's default bound 20 with snapshots 1, 2, 3. -/
theorem c1_history_linearity_witness :
    ((((HistoryManager.empty Nat 20).save_state 1).save_state 2).undo.2.save_state 3)
        = ⟨20, [1, 3], 1⟩ :=
  (c1_history_linearity Nat 20 (by decide) 1 2 3).1

/-- C4: over `max_history + 5` sequential saves from a fresh engine, the
entry count never exceeds `max_history` at any intermediate point, every
intermediate timeline is a suffix of the saves so far (eviction is FIFO at
the old end), and the final timeline is exactly the last `max_history`
saved images in order with the cursor on the newest. -/
theorem c4_bounded_history (α : Type) (m : Nat) (hm : 1 ≤ m) (f : Nat → α) :
    (∀ k : Nat,
      (saveSeq (HistoryManager.empty α m)
        (((List.range (m + 5)).map f).take k)).history.length ≤ m)
    ∧ (∀ k : Nat,
      (saveSeq (HistoryManager.empty α m)
        (((List.range (m + 5)).map f).take k)).history
      = (((List.range (m + 5)).map f).take k).drop
          ((((List.range (m + 5)).map f).take k).length - m))
    ∧ (saveSeq (HistoryManager.empty α m) ((List.range (m + 5)).map f)).history
        = ((List.range (m + 5)).map f).drop 5
    ∧ (saveSeq (HistoryManager.empty α m)
        ((List.range (m + 5)).map f)).current_index = (m : Int) - 1 := by
  have hlen : ((List.range (m + 5)).map f).length = m + 5 := by simp
  refine ⟨?_, ?_, ?_, ?_⟩
  · intro k
    rw [saveSeq_empty_spec m hm]
    simp only [List.length_drop]
    omega
  · intro k
    rw [saveSeq_empty_spec m hm]
  · rw [saveSeq_empty_spec m hm]
    have e : ((List.range (m + 5)).map f).length - m = 5 := by rw [hlen]; omega
    rw [e]
  · rw [saveSeq_empty_spec m hm]
    have e : min ((List.range (m + 5)).map f).length m = m := by rw [hlen]; omega
    simp only [e]

/-- Witness for C4 with bound 3 and the save sequence 0,1,...,7. -/
theorem c4_bounded_history_witness :
    (saveSeq (HistoryManager.empty Nat 3) ((List.range (3 + 5)).map id)).history
      = ((List.range (3 + 5)).map id).drop 5 :=
  (c4_bounded_history Nat 3 (by decide) id).2.2.1

/-- C10: a rejected `undo` (when `can_undo` is false) and a rejected `redo`
(when `can_redo` is false) return `None` and leave the stored entry list,
the cursor and the bound completely unchanged. -/
theorem c10_rejected_undo_redo (α : Type) (h : HistoryManager α) :
    (h.can_undo = false → h.undo = (none, h))
    ∧ (h.can_redo = false → h.redo = (none, h)) := by
  constructor
  · intro hu
    simp [HistoryManager.undo, hu]
  · intro hr
    simp [HistoryManager.redo, hr]

/-- Witness for C10 on a one-entry history with the cursor at 0, where
neither undo nor redo is allowed. -/
theorem c10_rejected_undo_redo_witness :
    (⟨5, [7], 0⟩ : HistoryManager Nat).can_undo = false
    ∧ (⟨5, [7], 0⟩ : HistoryManager Nat).undo = (none, ⟨5, [7], 0⟩)
    ∧ (⟨5, [7], 0⟩ : HistoryManager Nat).can_redo = false
    ∧ (⟨5, [7], 0⟩ : HistoryManager Nat).redo = (none, ⟨5, [7], 0⟩) :=
  ⟨by decide, (c10_rejected_undo_redo Nat _).1 (by decide),
   by decide, (c10_rejected_undo_redo Nat _).2 (by decide)⟩

/-! ### Image model

A PIL image / numpy array is embedded as its dimensions together with a
pixel-lookup function `pix row column` (row-major, like `img_array[y, x]`).
Pixels are RGB triples of naturals. -/

/-- An RGB pixel, 8 bits per channel (values kept as naturals). -/
abbrev Pixel := Nat × Nat × Nat

/-- A raster image: `width`, `height`, and the pixel grid as a function
from row index `y` and column index `x`. -/
structure PImage where
  width : Nat
  height : Nat
  pix : Nat → Nat → Pixel

/-- `PIL.Image.crop((x1, y1, x2, y2))`: the `(x2-x1) × (y2-y1)` sub-image
whose `(y, x)` pixel is the source's `(y1+y, x1+x)` pixel. -/
def PImage.crop (img : PImage) (x1 y1 x2 y2 : Nat) : PImage :=
  ⟨x2 - x1, y2 - y1, fun y x => img.pix (y1 + y) (x1 + x)⟩

/-- `PIL.Image.new('RGB', (w, h), color=c)`. -/
def PImage.new (w h : Nat) (c : Pixel) : PImage :=
  ⟨w, h, fun _ _ => c⟩

/-- `base.paste(part, (px, py))`: overwrite the rectangle of `base` whose
top-left corner is `(px, py)` with the pixels of `part`. -/
def PImage.paste (base part : PImage) (px py : Nat) : PImage :=
  ⟨base.width, base.height, fun y x =>
    if py ≤ y ∧ y < py + part.height ∧ px ≤ x ∧ x < px + part.width
    then part.pix (y - py) (x - px)
    else base.pix y x⟩

/-- `max(0, min(v, hi))`: the coordinate-clamping idiom used throughout the
image-processing module. -/
def clampI (v : Int) (hi : Nat) : Int :=
  max 0 (min v (hi : Int))

/-- `img_array[y1:y2, x1:x2] = c`: numpy slice assignment of one color to a
rectangular region. -/
def setRegion (img : PImage) (x1 y1 x2 y2 : Nat) (c : Pixel) : PImage :=
  ⟨img.width, img.height, fun y x =>
    if y1 ≤ y ∧ y < y2 ∧ x1 ≤ x ∧ x < x2 then c else img.pix y x⟩

/-! ### `ImageProcessor.vertical_delete_and_stitch`
(`src/core/image_processor.py`, lines 14-67) -/

/-- `ImageProcessor.vertical_delete_and_stitch`: clamp `y1, y2` to the image
height (the `x` coordinates of the rectangle are never read); if the band is
empty, return a copy; otherwise crop the rows above `y1` and the rows from
`y2` down, and paste them onto a fresh white image of the combined height.
`top_part`/`bottom_part` are non-`None` exactly when `y1 > 0` / `y2 < height`,
and a non-`None` PIL image is always truthy. -/
def vertical_delete_and_stitch (image : PImage) (selection_rect : Int × Int × Int × Int) :
    PImage :=
  let (_, y1, _, y2) := selection_rect
  let width := image.width
  let height := image.height
  let y1 := clampI y1 height
  let y2 := clampI y2 height
  if y1 ≥ y2 then image
  else
    let new_height : Nat :=
      (if 0 < y1 then y1.toNat else 0)
      + (if y2 < (height : Int) then height - y2.toNat else 0)
    if new_height ≤ 0 then image
    else
      let base := PImage.new width new_height (255, 255, 255)
      let withTop :=
        if 0 < y1 then base.paste (image.crop 0 0 width y1.toNat) 0 0 else base
      let current_y := if 0 < y1 then y1.toNat else 0
      if y2 < (height : Int) then
        withTop.paste (image.crop 0 y2.toNat width height) 0 current_y
      else withTop

/-! ### `ImageProcessor.smart_fill`
(`src/core/image_processor.py`, lines 69-164)

The OpenCV `cv2.inpaint` primitive is external; it is passed in as a
function from the image and the binary mask to the inpainted image. -/

/-- The border pixels sampled by the `average` and `median` fill modes: the
row just above, the row just below, the column just left and the column just
right of the clamped rectangle, each only when it lies in bounds. -/
def borderPixels (img : PImage) (x1 y1 x2 y2 : Nat) : List Pixel :=
  (if 0 < y1 then (List.range (x2 - x1)).map (fun i => img.pix (y1 - 1) (x1 + i)) else [])
  ++ (if y2 < img.height then (List.range (x2 - x1)).map (fun i => img.pix y2 (x1 + i)) else [])
  ++ (if 0 < x1 then (List.range (y2 - y1)).map (fun i => img.pix (y1 + i) (x1 - 1)) else [])
  ++ (if x2 < img.width then (List.range (y2 - y1)).map (fun i => img.pix (y1 + i) x2) else [])

/-- Per-channel `np.mean(..., axis=0).astype(np.uint8)` over a pixel list:
the float mean of 8-bit channel values truncates to the integer quotient. -/
def meanPixel (l : List Pixel) : Pixel :=
  ((l.map (fun p => p.1)).sum / l.length,
   (l.map (fun p => p.2.1)).sum / l.length,
   (l.map (fun p => p.2.2)).sum / l.length)

/-- `np.median` of a list of naturals followed by integer truncation: the
middle element of the sorted list, or the truncated mean of the two middle
elements when the length is even. -/
def median1 (l : List Nat) : Nat :=
  let s := l.insertionSort (· ≤ ·)
  if l.length % 2 = 1 then s.getD (l.length / 2) 0
  else (s.getD (l.length / 2 - 1) 0 + s.getD (l.length / 2) 0) / 2

/-- Per-channel `np.median(..., axis=0).astype(np.uint8)` over a pixel list. -/
def medianPixel (l : List Pixel) : Pixel :=
  (median1 (l.map (fun p => p.1)),
   median1 (l.map (fun p => p.2.1)),
   median1 (l.map (fun p => p.2.2)))

/-- `ImageProcessor.smart_fill`: clamp the rectangle into bounds; when it is
degenerate return a copy; otherwise dispatch on the mode string.  `inpaint`
delegates to the external OpenCV primitive `inpaintFn` with the rectangle as
binary mask; `average`/`median` fill with the mean/median of the sampled
border pixels (no-op when no border pixel is in bounds); `color` fills with
the given color, defaulting to white; any other mode string is a no-op. -/
def smart_fill (inpaintFn : PImage → (Nat → Nat → Bool) → PImage)
    (image : PImage) (selection_rect : Int × Int × Int × Int)
    (fill_mode : String) (fill_color : Option Pixel) : PImage :=
  let (x1, y1, x2, y2) := selection_rect
  let width := image.width
  let height := image.height
  let x1 := clampI x1 width
  let y1 := clampI y1 height
  let x2 := clampI x2 width
  let y2 := clampI y2 height
  if x1 ≥ x2 ∨ y1 ≥ y2 then image
  else
    let x1 := x1.toNat
    let y1 := y1.toNat
    let x2 := x2.toNat
    let y2 := y2.toNat
    if fill_mode = "inpaint" then
      inpaintFn image (fun y x => decide (y1 ≤ y ∧ y < y2 ∧ x1 ≤ x ∧ x < x2))
    else if fill_mode = "average" then
      let border := borderPixels image x1 y1 x2 y2
      if border.isEmpty then image
      else setRegion image x1 y1 x2 y2 (meanPixel border)
    else if fill_mode = "color" then
      setRegion image x1 y1 x2 y2 (fill_color.getD (255, 255, 255))
    else if fill_mode = "median" then
      let border := borderPixels image x1 y1 x2 y2
      if border.isEmpty then image
      else setRegion image x1 y1 x2 y2 (medianPixel border)
    else image

@[simp] theorem PImage.new_width (w h : Nat) (c : Pixel) : (PImage.new w h c).width = w := rfl

@[simp] theorem PImage.new_height (w h : Nat) (c : Pixel) : (PImage.new w h c).height = h := rfl

@[simp] theorem PImage.paste_width (base part : PImage) (px py : Nat) :
    (base.paste part px py).width = base.width := rfl

@[simp] theorem PImage.paste_height (base part : PImage) (px py : Nat) :
    (base.paste part px py).height = base.height := rfl

theorem clampI_nonneg (v : Int) (hi : Nat) : 0 ≤ clampI v hi := le_max_left 0 _

theorem clampI_le (v : Int) (hi : Nat) : clampI v hi ≤ (hi : Int) := by
  simp [clampI]

theorem clampI_eq_self (v : Int) (hi : Nat) (h0 : 0 ≤ v) (h1 : v ≤ (hi : Int)) :
    clampI v hi = v := by
  simp [clampI]
  omega

/-- C2 (amended): for a clamped vertical band with `y1 < y2` that does not
cover the whole image (so the stitched height is positive), the output
height is `(y1 if y1>0 else 0) + (height−y2 if y2<height else 0)`, the width
is preserved, and the horizontal coordinates of the rectangle have no effect
on the result.  (When the band covers the whole image the code returns an
unmodified copy instead; see the counterexample.) -/
theorem c2_reflow_height_law (img : PImage) (x1 y1 x2 y2 x1a x2a : Int)
    (h1 : clampI y1 img.height < clampI y2 img.height)
    (h2 : 0 < clampI y1 img.height ∨ clampI y2 img.height < (img.height : Int)) :
    (vertical_delete_and_stitch img (x1, y1, x2, y2)).height
      = (if 0 < clampI y1 img.height then (clampI y1 img.height).toNat else 0)
        + (if clampI y2 img.height < (img.height : Int)
           then img.height - (clampI y2 img.height).toNat else 0)
    ∧ (vertical_delete_and_stitch img (x1, y1, x2, y2)).width = img.width
    ∧ vertical_delete_and_stitch img (x1, y1, x2, y2)
        = vertical_delete_and_stitch img (x1a, y1, x2a, y2) := by
  have hy1n : 0 ≤ clampI y1 img.height := clampI_nonneg y1 img.height
  have hy2le : clampI y2 img.height ≤ (img.height : Int) := clampI_le y2 img.height
  have hpos : ¬ ((if 0 < clampI y1 img.height then (clampI y1 img.height).toNat else 0)
      + (if clampI y2 img.height < (img.height : Int)
         then img.height - (clampI y2 img.height).toNat else 0) ≤ 0) := by
    rcases h2 with h2 | h2
    · rw [if_pos h2]
      omega
    · rw [if_pos h2]
      omega
  refine ⟨?_, ?_, rfl⟩
  · simp only [vertical_delete_and_stitch]
    rw [if_neg (not_le.mpr h1), if_neg hpos]
    by_cases hb : clampI y2 img.height < (img.height : Int)
    · rw [if_pos hb]
      simp only [PImage.paste_height]
      split <;> simp
    · rw [if_neg hb]
      by_cases ht : 0 < clampI y1 img.height
      · rw [if_pos ht]
        simp
      · rw [if_neg ht]
        simp
  · simp only [vertical_delete_and_stitch]
    rw [if_neg (not_le.mpr h1), if_neg hpos]
    by_cases hb : clampI y2 img.height < (img.height : Int)
    · rw [if_pos hb]
      simp only [PImage.paste_width]
      split <;> simp
    · rw [if_neg hb]
      by_cases ht : 0 < clampI y1 img.height
      · rw [if_pos ht]
        simp
      · rw [if_neg ht]
        simp

/-- A 2×2 all-white test image. -/
def imgC2 : PImage := ⟨2, 2, fun _ _ => (255, 255, 255)⟩

/-- Counterexample to C2 as stated: on a 2×2 image with the band
`y1 = 0, y2 = 2` (clamped band valid, `y1 < y2`), the claimed height formula
yields `0`, but the code returns an unmodified copy of height 2 because of
its `new_height <= 0` guard. -/
theorem c2_counterexample :
    clampI 0 imgC2.height < clampI 2 imgC2.height
    ∧ (vertical_delete_and_stitch imgC2 ((0 : Int), 0, 2, 2)).height
        ≠ (if (0 : Int) < clampI 0 imgC2.height then (clampI 0 imgC2.height).toNat else 0)
          + (if clampI 2 imgC2.height < (imgC2.height : Int)
             then imgC2.height - (clampI 2 imgC2.height).toNat else 0) := by
  constructor
  · decide
  · decide

/-- Witness for C2 (amended): deleting the band `[1, 3)` from a 4×4 image
yields height `1 + 1 = 2`. -/
theorem c2_reflow_height_law_witness :
    (vertical_delete_and_stitch ⟨4, 4, fun _ _ => (255, 255, 255)⟩
      ((0 : Int), 1, 4, 3)).height = 2 := by
  have h := c2_reflow_height_law ⟨4, 4, fun _ _ => (255, 255, 255)⟩ 0 1 4 3 7 9
    (by decide) (by decide)
  rw [h.1]
  decide

/-- C5: for every inpainting primitive, every image, every fill mode string
and every rectangle that is degenerate after clamping, `smart_fill` returns
its input image unchanged (and, being a total function, never fails). -/
theorem c5_degenerate_noop (inpaintFn : PImage → (Nat → Nat → Bool) → PImage)
    (img : PImage) (x1 y1 x2 y2 : Int) (mode : String) (color : Option Pixel)
    (hdeg : clampI x1 img.width ≥ clampI x2 img.width
            ∨ clampI y1 img.height ≥ clampI y2 img.height) :
    smart_fill inpaintFn img (x1, y1, x2, y2) mode color = img := by
  simp only [smart_fill]
  rw [if_pos hdeg]

/-- Witness for C5: a width-degenerate rectangle with an unrecognized mode
string is a no-op on a 4×4 white image. -/
theorem c5_degenerate_noop_witness :
    smart_fill (fun i _ => i) ⟨4, 4, fun _ _ => (255, 255, 255)⟩
      ((2 : Int), 1, 2, 4) "weird" none = ⟨4, 4, fun _ _ => (255, 255, 255)⟩ :=
  c5_degenerate_noop (fun i _ => i) ⟨4, 4, fun _ _ => (255, 255, 255)⟩
    2 1 2 4 "weird" none (by decide)

/-- C3: color-mode fill on an in-bounds, non-degenerate rectangle sets every
pixel inside the rectangle to the requested color, leaves every pixel
outside it unchanged, preserves the dimensions, and defaults the color to
white `(255,255,255)` when none is given. -/
theorem c3_color_fill_exact (inpaintFn : PImage → (Nat → Nat → Bool) → PImage)
    (img : PImage) (x1 y1 x2 y2 : Int) (c : Pixel)
    (hx1 : 0 ≤ x1) (hx2 : x2 ≤ (img.width : Int))
    (hy1 : 0 ≤ y1) (hy2 : y2 ≤ (img.height : Int))
    (hxx : x1 < x2) (hyy : y1 < y2) :
    (∀ x y : Nat, x1.toNat ≤ x → x < x2.toNat → y1.toNat ≤ y → y < y2.toNat →
      (smart_fill inpaintFn img (x1, y1, x2, y2) "color" (some c)).pix y x = c)
    ∧ (∀ x y : Nat, ¬ (x1.toNat ≤ x ∧ x < x2.toNat ∧ y1.toNat ≤ y ∧ y < y2.toNat) →
      (smart_fill inpaintFn img (x1, y1, x2, y2) "color" (some c)).pix y x = img.pix y x)
    ∧ smart_fill inpaintFn img (x1, y1, x2, y2) "color" none
        = smart_fill inpaintFn img (x1, y1, x2, y2) "color" (some (255, 255, 255))
    ∧ (smart_fill inpaintFn img (x1, y1, x2, y2) "color" (some c)).width = img.width
    ∧ (smart_fill inpaintFn img (x1, y1, x2, y2) "color" (some c)).height = img.height := by
  have cx1 : clampI x1 img.width = x1 := clampI_eq_self x1 img.width hx1 (le_of_lt (lt_of_lt_of_le hxx hx2))
  have cx2 : clampI x2 img.width = x2 := clampI_eq_self x2 img.width (le_of_lt (lt_of_le_of_lt hx1 hxx)) hx2
  have cy1 : clampI y1 img.height = y1 := clampI_eq_self y1 img.height hy1 (le_of_lt (lt_of_lt_of_le hyy hy2))
  have cy2 : clampI y2 img.height = y2 := clampI_eq_self y2 img.height (le_of_lt (lt_of_le_of_lt hy1 hyy)) hy2
  have key : ∀ co : Option Pixel,
      smart_fill inpaintFn img (x1, y1, x2, y2) "color" co
        = setRegion img x1.toNat y1.toNat x2.toNat y2.toNat (co.getD (255, 255, 255)) := by
    intro co
    simp only [smart_fill, cx1, cx2, cy1, cy2]
    rw [if_neg (by push_neg; exact ⟨hxx, hyy⟩)]
    rw [if_neg (by decide), if_neg (by decide)]
    simp
  refine ⟨?_, ?_, ?_, ?_, ?_⟩
  · intro x y hxa hxb hya hyb
    rw [key]
    simp only [setRegion]
    rw [if_pos ⟨hya, hyb, hxa, hxb⟩]
    rfl
  · intro x y hout
    rw [key]
    simp only [setRegion]
    rw [if_neg (by tauto)]
  · rw [key, key]
    rfl
  · rw [key]
    rfl
  · rw [key]
    rfl

/-- Witness for C3: filling `(1,1)-(3,3)` of a 4×4 white image with black
makes pixel `(2,2)` black and leaves pixel `(0,0)` white. -/
theorem c3_color_fill_exact_witness :
    (smart_fill (fun i _ => i) ⟨4, 4, fun _ _ => (255, 255, 255)⟩
      ((1 : Int), 1, 3, 3) "color" (some (0, 0, 0))).pix 2 2 = (0, 0, 0)
    ∧ (smart_fill (fun i _ => i) ⟨4, 4, fun _ _ => (255, 255, 255)⟩
      ((1 : Int), 1, 3, 3) "color" (some (0, 0, 0))).pix 0 0 = (255, 255, 255) := by
  have h := c3_color_fill_exact (fun i _ => i) ⟨4, 4, fun _ _ => (255, 255, 255)⟩
    1 1 3 3 (0, 0, 0) (by decide) (by decide) (by decide) (by decide) (by decide) (by decide)
  exact ⟨h.1 2 2 (by decide) (by decide) (by decide) (by decide),
         h.2.1 0 0 (by decide)⟩

/-! ### `TextEditor` (`src/core/text_editor.py`)

`cv2.Canny` is external; the edge-pixel count it produces for a region is
passed in as a function parameter.  Font-file lookup on disk
(`_get_font_path`) is likewise passed in as a name-to-path function. -/

/-- Python `min` over a list of ints (only used on non-empty lists). -/
def listMinI : List Int → Int
  | [] => 0
  | x :: xs => xs.foldl min x

/-- Python `max` over a list of ints (only used on non-empty lists). -/
def listMaxI : List Int → Int
  | [] => 0
  | x :: xs => xs.foldl max x

/-- The axis-aligned bounding box of a polygon's points, clamped into the
image bounds (`text_editor.py` lines 41-51). -/
structure ClampedBBox where
  x1 : Nat
  y1 : Nat
  x2 : Nat
  y2 : Nat
deriving Repr, DecidableEq

/-- Compute the clamped axis-aligned bounds of a text bbox polygon. -/
def bboxBounds (img : PImage) (text_bbox : List (Int × Int)) : ClampedBBox :=
  let xs := text_bbox.map Prod.fst
  let ys := text_bbox.map Prod.snd
  ⟨(clampI (listMinI xs) img.width).toNat,
   (clampI (listMinI ys) img.height).toNat,
   (clampI (listMaxI xs) img.width).toNat,
   (clampI (listMaxI ys) img.height).toNat⟩

/-- The pixels of `img_array[y1:y2, x1:x2]`, row-major. -/
def regionPixels (img : PImage) (b : ClampedBBox) : List Pixel :=
  ((List.range (b.y2 - b.y1)).map fun dy =>
    (List.range (b.x2 - b.x1)).map fun dx => img.pix (b.y1 + dy) (b.x1 + dx)).flatten

/-- The font-feature record returned by `extract_font_features`. -/
structure FontFeatures where
  font_size : Nat
  font_color : Pixel
  is_bold : Bool
  char_spacing : Nat
  bbox : Option ClampedBBox
deriving Repr, DecidableEq

/-- `TextEditor._get_default_features`. -/
def get_default_features : FontFeatures :=
  ⟨24, (0, 0, 0), false, 2, none⟩

/-- `TextEditor.extract_font_features`.  Notes on the numeric embedding:
`int((y2-y1) * 0.8)` truncates the double product toward zero; because the
double closest to `0.8` is slightly above `4/5` and products `h * 0.8` are
at distance at least `1/5` from any integer unless `5 ∣ h` (in which case
the product stays within a quarter ulp above the integer), the truncation
equals `4*h/5` in integer division for all region heights in range.  The
same argument gives `int((x2-x1) * 0.05) = (x2-x1)/20`, and the edge-density
test `count/total > 0.1` is exactly `10*count > total`.  The Canny edge
count over the clamped region is the external parameter `cannyCount`. -/
def extract_font_features (cannyCount : PImage → ClampedBBox → Nat)
    (image : Option PImage) (text_bbox : List (Int × Int)) : FontFeatures :=
  match image with
  | none => get_default_features
  | some img =>
    if text_bbox.isEmpty then get_default_features
    else
      let b := bboxBounds img text_bbox
      if (b.y2 - b.y1) * (b.x2 - b.x1) = 0 then get_default_features
      else
        let font_size := max 12 (4 * (b.y2 - b.y1) / 5)
        let pixels := regionPixels img b
        let dark := pixels.filter fun p => decide (p.1 + p.2.1 + p.2.2 < 600)
        let font_color := if dark.length > 0 then medianPixel dark else meanPixel pixels
        let is_bold := decide (10 * cannyCount img b > (b.y2 - b.y1) * (b.x2 - b.x1))
        let char_spacing := max 0 ((b.x2 - b.x1) / 20)
        ⟨font_size, font_color, is_bold, char_spacing, some b⟩

/-- The hard-coded list substituted in `match_font` when `get_system_fonts`
returns an empty list (`text_editor.py` lines 117-118). -/
def defaultSystemFonts : List String :=
  ["SimHei", "SimSun", "Arial", "Times New Roman"]

/-- `any('一' <= char <= '鿿' for char in text_content)`. -/
def has_chinese (text_content : String) : Bool :=
  text_content.toList.any fun ch => decide (0x4e00 ≤ ch.toNat ∧ ch.toNat ≤ 0x9fff)

/-- The preference lists of `match_font` (bold variants prepended). -/
def preferred_fonts (hasCh : Bool) (bold : Bool) : List String :=
  if hasCh then
    if bold then
      ["SimHei", "Microsoft YaHei", "KaiTi"]
        ++ ["SimHei", "Microsoft YaHei", "SimSun", "KaiTi"]
    else ["SimHei", "Microsoft YaHei", "SimSun", "KaiTi"]
  else
    if bold then
      ["Arial Bold", "Times New Roman Bold"]
        ++ ["Arial", "Times New Roman", "Calibri", "Courier New"]
    else ["Arial", "Times New Roman", "Calibri", "Courier New"]

/-- The available-font list after `match_font`'s empty-list substitution. -/
def availableFonts (system_fonts : List String) : List String :=
  if system_fonts.isEmpty then defaultSystemFonts else system_fonts

/-- The font-name selection of `TextEditor.match_font` (lines 114-144): the
first preferred name present among the available fonts, else the first
available font, else `None` ("no usable font"). -/
def matchFontName (system_fonts : List String) (features : FontFeatures)
    (text_content : String) : Option String :=
  match (preferred_fonts (has_chinese text_content) features.is_bold).find?
      (fun p => (availableFonts system_fonts).contains p) with
  | some p => some p
  | none => (availableFonts system_fonts).head?

/-- `TextEditor.match_font`: select a name, resolve it through the external
font-path lookup, and pair it with the feature record's font size. -/
def match_font (lookup : String → Option String) (system_fonts : List String)
    (font_features : FontFeatures) (text_content : String) : Option String × Nat :=
  match matchFontName system_fonts font_features text_content with
  | none => (none, font_features.font_size)
  | some name => (lookup name, font_features.font_size)

/-- `TextEditor.delete_text` (lines 195-235): `None` image propagates as
`None`; an empty bbox list returns a copy; otherwise all bboxes are clamped,
padded by 2 pixels and unioned into one binary mask, and the external
inpainting primitive runs once over that mask. -/
def delete_text (inpaintFn : PImage → (Nat → Nat → Bool) → PImage)
    (image : Option PImage) (text_bboxes : List (List (Int × Int))) : Option PImage :=
  match image with
  | none => none
  | some img =>
    if text_bboxes.isEmpty then some img
    else
      let mask : Nat → Nat → Bool := fun y x =>
        text_bboxes.any fun bbox =>
          let xs := bbox.map Prod.fst
          let ys := bbox.map Prod.snd
          let x1 := max 0 (listMinI xs)
          let x2 := min (img.width : Int) (listMaxI xs)
          let y1 := max 0 (listMinI ys)
          let y2 := min (img.height : Int) (listMaxI ys)
          if x1 < x2 ∧ y1 < y2 then
            decide ((max 0 (x1 - 2)).toNat ≤ x
              ∧ (x : Int) < min (img.width : Int) (x2 + 2)
              ∧ (max 0 (y1 - 2)).toNat ≤ y
              ∧ (y : Int) < min (img.height : Int) (y2 + 2))
          else false
      some (inpaintFn img mask)

/-! ### `OCRProcessor` (`src/core/ocr_processor.py`)

The PaddleOCR engine is external: its handle is `Option Unit` (present or
not), and the outcome of one `ocr.ocr(...)` call is passed in as an
`Except`: an exception message, or the raw nested result list in which both
the page entry and each line may be missing (`None`). -/

/-- One raw line of the external OCR engine: `(bbox, (text, confidence))`. -/
structure OCRLine where
  bbox : List (Int × Int)
  text : String
  confidence : ℚ

/-- One parsed recognition result as built by `recognize_text`. -/
structure OCRResult where
  text : String
  bbox : List (Int × Int)
  confidence : ℚ

/-- `OCRProcessor.is_available`: the engine handle is not `None`. -/
def is_available (ocr : Option Unit) : Bool :=
  ocr.isSome

/-- `OCRProcessor.recognize_text`: empty list when the engine is missing or
the image is `None`; empty list when the call raises; otherwise parse
`result[0]` (skipping falsy entries) into result records. -/
def recognize_text (ocr : Option Unit) (image_region : Option PImage)
    (ocrCall : Except String (List (Option (List (Option OCRLine))))) : List OCRResult :=
  match ocr with
  | none => []
  | some _ =>
    match image_region with
    | none => []
    | some _ =>
      match ocrCall with
      | .error _ => []
      | .ok result =>
        match result with
        | some first :: _ =>
          (first.filterMap id).map fun line => ⟨line.text, line.bbox, line.confidence⟩
        | _ => []

/-- C6 (amended): for every image, Canny oracle and bbox polygon whose
clamped sampling region is non-empty, the extracted `font_size` is
`max(12, floor(0.8 × regionHeight))` — `int()` truncates, it does not round
to nearest (`4*h/5` is exactly that truncation). -/
theorem c6_font_size_formula (cannyCount : PImage → ClampedBBox → Nat)
    (img : PImage) (tb : List (Int × Int)) (h1 : tb ≠ [])
    (h2 : ((bboxBounds img tb).y2 - (bboxBounds img tb).y1)
        * ((bboxBounds img tb).x2 - (bboxBounds img tb).x1) ≠ 0) :
    (extract_font_features cannyCount (some img) tb).font_size
      = max 12 (4 * ((bboxBounds img tb).y2 - (bboxBounds img tb).y1) / 5) := by
  simp only [extract_font_features]
  rw [if_neg (by simpa using h1), if_neg h2]

/-- A 5×20 all-white test image. -/
def imgC6 : PImage := ⟨5, 20, fun _ _ => (255, 255, 255)⟩

/-- A bbox polygon spanning `x ∈ [0,2]`, `y ∈ [0,17]` (region height 17). -/
def bboxC6 : List (Int × Int) := [(0, 0), (2, 0), (2, 17), (0, 17)]

/-- Counterexample to C6 as stated: for a sampling region of height 17 the
code computes `font_size = max(12, int(0.8·17)) = 13`, while arithmetic
rounding to the nearest integer would give `max(12, round(13.6)) = 14`. -/
theorem c6_counterexample :
    (bboxBounds imgC6 bboxC6).y2 - (bboxBounds imgC6 bboxC6).y1 = 17
    ∧ (extract_font_features (fun _ _ => 0) (some imgC6) bboxC6).font_size = 13
    ∧ (extract_font_features (fun _ _ => 0) (some imgC6) bboxC6).font_size
        ≠ max 12 ((8 * 17 + 5) / 10) := by
  refine ⟨by decide, by decide, by decide⟩

/-- Witness for C6 (amended) on the height-17 region: the formula yields
`max 12 13 = 13`. -/
theorem c6_font_size_formula_witness :
    (extract_font_features (fun _ _ => 0) (some imgC6) bboxC6).font_size
      = max 12 (4 * ((bboxBounds imgC6 bboxC6).y2 - (bboxBounds imgC6 bboxC6).y1) / 5) :=
  c6_font_size_formula (fun _ _ => 0) imgC6 bboxC6 (by decide) (by decide)

/-- C7 (amended): font matching never signals "no usable font".  For every
lookup service, every available-fonts list (including the empty one, which
is replaced by the built-in default list), every feature record and every
text, a font name is chosen, and the result is its looked-up path together
with the feature record's size. -/
theorem c7_font_name_always_chosen (lookup : String → Option String)
    (system_fonts : List String) (features : FontFeatures) (text_content : String) :
    ∃ name : String,
      matchFontName system_fonts features text_content = some name
      ∧ match_font lookup system_fonts features text_content
          = (lookup name, features.font_size) := by
  have hne : availableFonts system_fonts ≠ [] := by
    cases system_fonts with
    | nil => simp [availableFonts, defaultSystemFonts]
    | cons a l => simp [availableFonts]
  have hsome : ∃ name : String,
      matchFontName system_fonts features text_content = some name := by
    unfold matchFontName
    cases hfind : (preferred_fonts (has_chinese text_content) features.is_bold).find?
        (fun p => (availableFonts system_fonts).contains p) with
    | some p =>
      simp only [hfind]
      exact ⟨p, rfl⟩
    | none =>
      simp only [hfind]
      cases hav : availableFonts system_fonts with
      | nil => exact absurd hav hne
      | cons a l => exact ⟨a, rfl⟩
  obtain ⟨name, hname⟩ := hsome
  refine ⟨name, hname, ?_⟩
  unfold match_font
  rw [hname]

/-- Counterexample to C7 as stated: with an empty available-fonts list,
non-CJK text and non-bold features, `match_font` does not signal "no usable
font" — it substitutes the built-in default list, chooses the name
`"Arial"`, and returns its looked-up resource. -/
theorem c7_counterexample :
    matchFontName [] get_default_features "hello" = some "Arial"
    ∧ match_font (fun n => some n) [] get_default_features "hello"
        ≠ (none, get_default_features.font_size) := by
  refine ⟨by decide, by decide⟩

/-- C8 (amended): `delete_text` with an empty bbox list returns an
unmodified copy when an image is present, but an absent image propagates as
the absent value `None`, for every inpainting primitive and bbox list. -/
theorem c8_delete_noop (inpaintFn : PImage → (Nat → Nat → Bool) → PImage)
    (img : PImage) (text_bboxes : List (List (Int × Int))) :
    delete_text inpaintFn (some img) [] = some img
    ∧ delete_text inpaintFn none text_bboxes = none :=
  ⟨rfl, rfl⟩

/-- Counterexample to C8 as stated: with the image absent (and an empty bbox
list), `delete_text` returns `None` — a failure value, not a usable image. -/
theorem c8_counterexample :
    (delete_text (fun i _ => i) (none : Option PImage) []).isSome = false :=
  rfl

/-- A 1×1 all-white test image. -/
def imgOCR : PImage := ⟨1, 1, fun _ _ => (255, 255, 255)⟩

/-- Counterexample to C9 as stated: an exception during detection, an
unavailable engine, and a successful detection that found no text all
produce the same observable result `[]` from `recognize_text`. -/
theorem c9_counterexample :
    recognize_text (some ()) (some imgOCR) (Except.error "OCR detection failed")
      = recognize_text (some ()) (some imgOCR) (Except.ok [])
    ∧ recognize_text none (some imgOCR)
        (Except.ok [some [some ⟨[(0, 0), (1, 0), (1, 1), (0, 1)], "hi", 9/10⟩]])
      = recognize_text (some ()) (some imgOCR) (Except.ok []) :=
  ⟨rfl, rfl⟩

/-- C9 (amended): `recognize_text` returns the empty list when the engine is
unavailable, when the detection call raises, and when detection succeeds
with no text, indistinguishably; only the separate `is_available` query
exposes (only) engine availability. -/
theorem c9_failure_collapses_to_empty (image_region : Option PImage) (msg : String)
    (ocrCall : Except String (List (Option (List (Option OCRLine))))) :
    recognize_text none image_region ocrCall = []
    ∧ recognize_text (some ()) image_region (Except.error msg) = []
    ∧ recognize_text (some ()) image_region (Except.ok []) = []
    ∧ is_available none = false
    ∧ is_available (some ()) = true := by
  refine ⟨rfl, ?_, ?_, rfl, rfl⟩
  · cases image_region <;> rfl
  · cases image_region <;> rfl

end PictureModify
